import Mathlib

/-!
Verification development for the `handler` package (a regexp-based HTTP
request router).  The package registers (regular expression, function)
pairs through `Add`, which compiles `"^" + expression + "$"`, and serves a
request by scanning the registered routes in order, invoking the function
of the first route whose compiled expression matches the request path
(`FindStringSubmatch`), passing the submatches with group 0 dropped.

The Go code is shallowly embedded:

* `Regex` is the abstract syntax of the regular-expression fragment the
  routes use: literal characters, character classes, any-char, the text
  anchors and word boundaries, capturing and non-capturing grouping,
  alternation, and bounded or unbounded greedy and lazy repetition.
* `mlistF` is a backtracking matcher producing the list of all matches of
  a regex at a given start position, in backtracking priority order
  (alternation prefers its left branch, greedy repetition prefers more
  iterations and lazy repetition fewer), threading capture-group spans;
  this mirrors the leftmost-first semantics Go's regexp package
  implements.  A fuel argument makes the function total; fuel exhaustion
  is reported as `none` (never silently treated as a failed match), and
  the initial fuel is far larger than the recursion depth any of the
  concrete patterns below can reach.
* `compile` parses a pattern string exactly as written (so the textual
  anchoring performed by `Add` is reproduced faithfully, including its
  interaction with the low precedence of alternation).  The parser
  follows Go's regexp/syntax on the covered fragment: postfix `*` `+` `?`
  and counted `{m}` `{m,}` `{m,n}` repetition with Go's validation (counts
  at most 1000, min at most max, a brace that does not form a repetition
  is a literal, a repetition of a repetition is an error, a trailing `?`
  makes a repetition non-greedy), capturing `(...)`, non-capturing
  `(?:...)` and named `(?P<name>...)` / `(?<name>...)` groups with
  duplicate-name detection and a nesting-depth limit, character classes
  with ranges, negation and escapes, the escapes `\a \f \n \r \t \v`,
  `\d \D \s \S \w \W`, `\A \z \b \B` and escaped punctuation, and the
  errors Go reports for unbalanced brackets and parentheses, dangling
  operators, invalid ranges, invalid repeat counts, trailing backslashes,
  invalid escapes and invalid named captures.  Constructs outside the
  fragment (`\p`/`\P` unicode classes, hex `\x` and octal `\0` escapes,
  `\Q…\E` quoting, group flags such as `(?i)`, POSIX named classes
  `[[:alpha:]]`) are reported as `PErr.unsupported`: like the matcher's
  fuel `none`, this marks that the model decides nothing there, and no
  claim below asserts anything about such patterns.
* `RegexpHandler.Add` and `serveLoop` / `RegexpHandler.ServeHTTP` embed
  the two methods of the Go type; a handler function is represented by an
  opaque value of a type parameter `α`, and `ServeHTTP` returns the list
  of invocations (function value paired with the capture slice passed to
  it) that the dispatch loop performs.
-/

/-- Outcome of a failed parse: `fatal` is a genuine syntax error — Go's
`MustCompile` panics on such a pattern — while `unsupported` marks a
construct outside the modelled fragment of Go's syntax, about which this
development asserts nothing (it is treated as a failure so that no
behavior is ever derived for such a pattern). -/
inductive PErr : Type
  | fatal : String → PErr
  | unsupported : String → PErr
deriving DecidableEq, Repr

/-- Abstract syntax of the regular expressions the handler compiles.
`cls neg ranges` is a character class (negated when `neg` is true) given
by closed character ranges; `begins`/`ends` are the `^`/`$` anchors
(Go's default: beginning and end of the whole text, same as `\A`/`\z`);
`wordb neg` is the word boundary `\b` (`\B` when `neg`); `group i r` is
the `i`-th capturing parenthesis and `ncg r` a non-capturing group;
`rep min max greedy r` is repetition — at least `min` and at most `max`
iterations (`none` = unbounded), preferring more iterations when `greedy`
and fewer otherwise — so that `r*` is `rep 0 none true r`, `r+` is
`rep 1 none true r`, `r?` is `rep 0 (some 1) true r`, `r{m,n}` is
`rep m (some n) true r`, and the lazy forms carry `greedy = false`. -/
inductive Regex : Type
  | empty : Regex
  | char : Char → Regex
  | any : Regex
  | cls : Bool → List (Char × Char) → Regex
  | begins : Regex
  | ends : Regex
  | wordb : Bool → Regex
  | cat : Regex → Regex → Regex
  | alt : Regex → Regex → Regex
  | rep : Nat → Option Nat → Bool → Regex → Regex
  | ncg : Regex → Regex
  | group : Nat → Regex → Regex
deriving DecidableEq, Repr

/-- Number of capturing groups occurring in a regex. -/
def cg : Regex → Nat
  | .empty => 0
  | .char _ => 0
  | .any => 0
  | .cls _ _ => 0
  | .begins => 0
  | .ends => 0
  | .wordb _ => 0
  | .cat a b => cg a + cg b
  | .alt a b => cg a + cg b
  | .rep _ _ _ a => cg a
  | .ncg a => cg a
  | .group _ a => cg a + 1

/-- Structural size of a regex, used to choose the matcher's fuel. -/
def sizeR : Regex → Nat
  | .cat a b => sizeR a + sizeR b + 1
  | .alt a b => sizeR a + sizeR b + 1
  | .rep mn mx _ a => sizeR a + mn + (match mx with | some n => n | none => 0) + 1
  | .ncg a => sizeR a + 1
  | .group _ a => sizeR a + 1
  | _ => 1

/-- Recorded capture spans: entries `(group index, start, end)`, most
recent first (so a later iteration of a repeated group shadows an earlier
one, as in Go). -/
def Caps : Type := List (Nat × Nat × Nat)

/-- Test whether a character lies in one of the ranges of a class. -/
def inRanges (ranges : List (Char × Char)) (c : Char) : Bool :=
  ranges.any (fun p => decide (p.1 ≤ c) && decide (c ≤ p.2))

/-- Word characters in the sense of Go's `\w` and `\b`: ASCII letters,
digits and underscore. -/
def isWord (c : Char) : Bool :=
  c.isAlphanum || c == '_'

/-- Whether the character at position `pos` exists and is a word
character. -/
def wordAfter (s : List Char) (pos : Nat) : Bool :=
  match s[pos]? with
  | some ch => isWord ch
  | none => false

/-- Whether the character before position `pos` exists and is a word
character. -/
def wordBefore (s : List Char) (pos : Nat) : Bool :=
  match pos with
  | 0 => false
  | p + 1 => wordAfter s p

/-- Apply a fallible function to every element, collecting the results;
any failure (fuel exhaustion, below) makes the whole computation fail. -/
def seqMapM {A B : Type} (f : A → Option B) : List A → Option (List B)
  | [] => some []
  | x :: xs =>
    match f x, seqMapM f xs with
    | some y, some ys => some (y :: ys)
    | _, _ => none

/-- All matches of a regex against `s` starting at position `pos`, as a
list of `(end position, captures)` pairs in backtracking priority order:
the head is the match a leftmost-first (Perl-style) engine such as Go's
regexp package reports.  Alternation lists its left branch first; greedy
repetition lists iterations before the empty alternative and lazy
repetition the other way round; an unbounded iteration that consumes no
input is not repeated (Go's empty-loop guard).  The first argument `fuel`
bounds the recursion depth and makes the definition total: `none` means
the fuel ran out, `some l` is the complete match list. -/
def mlistF (s : List Char) : Nat → Regex → Nat → Caps → Option (List (Nat × Caps))
  | 0, _, _, _ => none
  | _ + 1, .empty, pos, caps => some [(pos, caps)]
  | _ + 1, .char c, pos, caps =>
    match s[pos]? with
    | some c2 => if c2 = c then some [(pos + 1, caps)] else some []
    | none => some []
  | _ + 1, .any, pos, caps =>
    match s[pos]? with
    | some c2 => if c2 = '\n' then some [] else some [(pos + 1, caps)]
    | none => some []
  | _ + 1, .cls neg ranges, pos, caps =>
    match s[pos]? with
    | some c2 => if inRanges ranges c2 ≠ neg then some [(pos + 1, caps)] else some []
    | none => some []
  | _ + 1, .begins, pos, caps => some (if pos = 0 then [(pos, caps)] else [])
  | _ + 1, .ends, pos, caps => some (if pos = s.length then [(pos, caps)] else [])
  | _ + 1, .wordb neg, pos, caps =>
    some (if (wordBefore s pos ≠ wordAfter s pos) ≠ neg then [(pos, caps)] else [])
  | fuel + 1, .cat r1 r2, pos, caps =>
    match mlistF s fuel r1 pos caps with
    | none => none
    | some l =>
      match seqMapM (fun x => mlistF s fuel r2 x.1 x.2) l with
      | none => none
      | some parts => some parts.flatten
  | fuel + 1, .alt r1 r2, pos, caps =>
    match mlistF s fuel r1 pos caps, mlistF s fuel r2 pos caps with
    | some a, some b => some (a ++ b)
    | _, _ => none
  | fuel + 1, .rep (mn + 1) mx greedy r, pos, caps =>
    match mlistF s fuel r pos caps with
    | none => none
    | some l =>
      match seqMapM
          (fun x => mlistF s fuel (.rep mn (mx.map (fun n => n - 1)) greedy r) x.1 x.2) l with
      | none => none
      | some parts => some parts.flatten
  | _ + 1, .rep 0 (some 0) _ _, pos, caps => some [(pos, caps)]
  | fuel + 1, .rep 0 (some (k + 1)) greedy r, pos, caps =>
    match mlistF s fuel r pos caps with
    | none => none
    | some l =>
      match seqMapM (fun x => mlistF s fuel (.rep 0 (some k) greedy r) x.1 x.2) l with
      | none => none
      | some parts =>
        some (if greedy then parts.flatten ++ [(pos, caps)] else (pos, caps) :: parts.flatten)
  | fuel + 1, .rep 0 none greedy r, pos, caps =>
    match mlistF s fuel r pos caps with
    | none => none
    | some l =>
      match seqMapM (fun x => mlistF s fuel (.rep 0 none greedy r) x.1 x.2)
          (l.filter (fun x => pos < x.1)) with
      | none => none
      | some parts =>
        some (if greedy then parts.flatten ++ [(pos, caps)] else (pos, caps) :: parts.flatten)
  | fuel + 1, .ncg r, pos, caps => mlistF s fuel r pos caps
  | fuel + 1, .group i r, pos, caps =>
    match mlistF s fuel r pos caps with
    | none => none
    | some l => some (l.map (fun x => (x.1, (i, pos, x.1) :: x.2)))

/-- Initial fuel: comfortably larger than the recursion depth the matcher
can reach on the patterns and paths this development evaluates. -/
def initFuel (r : Regex) (s : List Char) : Nat :=
  (sizeR r + 2) * (s.length + 2) * (s.length + 2) + 2

/-- The substring of `s` spanning positions `a` (inclusive) to `b`
(exclusive), as a `String`. -/
def subStr (s : List Char) (a b : Nat) : String :=
  ⟨(s.drop a).take (b - a)⟩

/-- The span recorded for capture group `i`, if the group participated in
the match (most recent record wins, as in Go). -/
def capLookup (caps : Caps) (i : Nat) : Option (Nat × Nat) :=
  match caps.find? (fun e => e.1 == i) with
  | some e => some e.2
  | none => none

/-- The submatch slice Go's `FindStringSubmatch` returns for a match of a
regex with `n` capturing groups spanning `startPos`..`endPos`: entry 0 is
the whole match, entry `k + 1` is the text of group `k + 1`, with the
empty string standing for a group that did not participate. -/
def renderMatch (s : List Char) (n startPos endPos : Nat) (caps : Caps) : List String :=
  subStr s startPos endPos ::
    (List.range n).map (fun k =>
      match capLookup caps (k + 1) with
      | some sp => subStr s sp.1 sp.2
      | none => "")

/-- Scan the given start positions in order and report the submatch slice
of the first position where the regex matches (Go's leftmost-first rule:
earliest start position wins, and at that position the backtracking-first
match is taken).  `some none` means the regex definitely matches at none
of the positions; `none` means the matcher ran out of fuel. -/
def fsmAux (r : Regex) (n : Nat) (s : List Char) (fuel : Nat) :
    List Nat → Option (Option (List String))
  | [] => some none
  | pos :: rest =>
    match mlistF s fuel r pos [] with
    | none => none
    | some [] => fsmAux r n s fuel rest
    | some (x :: _) => some (some (renderMatch s n pos x.1 x.2))

/-- Embedding of `re.FindStringSubmatch(path)` for a compiled regex `r`
with `n` capturing groups: `some (some m)` is a successful match with
submatch slice `m`, `some none` is Go's `nil` (no match), `none` is fuel
exhaustion of the model (never a statement about the Go code). -/
def findStringSubmatch (r : Regex) (n : Nat) (path : String) : Option (Option (List String)) :=
  fsmAux r n path.data (initFuel r path.data) (List.range (path.length + 1))

/-- The character ranges of Go's `\d`. -/
def digitRanges : List (Char × Char) := [('0', '9')]

/-- The character ranges of Go's `\s` = `[\t\n\f\r ]`. -/
def spaceRanges : List (Char × Char) :=
  [('\x09', '\x0a'), ('\x0c', '\x0d'), (' ', ' ')]

/-- The character ranges of Go's `\w` = `[0-9A-Za-z_]`. -/
def wordRanges : List (Char × Char) :=
  [('0', '9'), ('A', 'Z'), ('_', '_'), ('a', 'z')]

/-- The largest unicode scalar value, closing the complement ranges. -/
def maxChar : Char := Char.ofNat 0x10FFFF

/-- Complement of `digitRanges`, used for `\D` inside a class. -/
def nonDigitRanges : List (Char × Char) := [('\x00', '\x2f'), ('\x3a', maxChar)]

/-- Complement of `spaceRanges`, used for `\S` inside a class. -/
def nonSpaceRanges : List (Char × Char) :=
  [('\x00', '\x08'), ('\x0b', '\x0b'), ('\x0e', '\x1f'), ('\x21', maxChar)]

/-- Complement of `wordRanges`, used for `\W` inside a class. -/
def nonWordRanges : List (Char × Char) :=
  [('\x00', '\x2f'), ('\x3a', '\x40'), ('\x5b', '\x5e'), ('\x60', '\x60'), ('\x7b', maxChar)]

/-- The zero-width assertions an escape can denote. -/
inductive AnchKind : Type
  | textStart : AnchKind
  | textEnd : AnchKind
  | wordBound : AnchKind
  | nonWordBound : AnchKind
deriving DecidableEq, Repr

/-- The regex atom of a zero-width escape: `\A`, `\z`, `\b`, `\B`. -/
def anchRegex : AnchKind → Regex
  | .textStart => .begins
  | .textEnd => .ends
  | .wordBound => .wordb false
  | .nonWordBound => .wordb true

/-- Meaning of the character following a backslash, as in Go's parser:
a literal character, a perl character class (with its negation flag, base
ranges, and materialized complement for use inside classes), a zero-width
assertion, a construct outside the modelled fragment, or a genuine
error — Go rejects escaped letters it does not know, `\1`..`\9`
(backreferences are not supported), and escapes of non-ASCII runes. -/
inductive EscRes : Type
  | lit : Char → EscRes
  | set : Bool → List (Char × Char) → List (Char × Char) → EscRes
  | anch : AnchKind → EscRes
  | unk : String → EscRes
  | bad : String → EscRes

/-- Resolve one escaped character (shared between the top level and
character classes). -/
def escResolve (e : Char) : EscRes :=
  if e = 'a' then .lit '\x07'
  else if e = 'f' then .lit '\x0c'
  else if e = 'n' then .lit '\n'
  else if e = 'r' then .lit '\x0d'
  else if e = 't' then .lit '\t'
  else if e = 'v' then .lit '\x0b'
  else if e = 'd' then .set false digitRanges nonDigitRanges
  else if e = 'D' then .set true digitRanges nonDigitRanges
  else if e = 's' then .set false spaceRanges nonSpaceRanges
  else if e = 'S' then .set true spaceRanges nonSpaceRanges
  else if e = 'w' then .set false wordRanges nonWordRanges
  else if e = 'W' then .set true wordRanges nonWordRanges
  else if e = 'A' then .anch .textStart
  else if e = 'z' then .anch .textEnd
  else if e = 'b' then .anch .wordBound
  else if e = 'B' then .anch .nonWordBound
  else if e = 'x' ∨ e = 'p' ∨ e = 'P' ∨ e = 'Q' ∨ e = 'E' ∨ e = '0' then
    .unk "escape outside the modelled fragment"
  else if e.isAlphanum ∨ 128 ≤ e.toNat then .bad "invalid escape sequence"
  else .lit e

/-- Position state inside a character class: nothing pending, a pending
lower character, or a pending lower character followed by a dash (a range
in progress).  This mirrors Go's class scanning: a dash is an ordinary
character except between two characters, where it forms a range. -/
inductive ClsPos : Type
  | n0 : ClsPos
  | pend : Char → ClsPos
  | pendDash : Char → ClsPos
deriving DecidableEq, Repr

/-- One token inside a character class: a literal character (possibly
from an escape), a bare dash, a character set from a class escape such as
`\d`, or the closing bracket. -/
inductive ClsTok : Type
  | lit : Char → ClsTok
  | rawDash : ClsTok
  | set : List (Char × Char) → ClsTok
  | close : ClsTok

/-- Continuation after one class token: keep scanning with an updated
state, or the finished class (negation flag and ranges). -/
inductive ClsCont : Type
  | more : Bool → List (Char × Char) → ClsPos → ClsCont
  | done : Bool → List (Char × Char) → ClsCont

/-- One transition of the class scanner.  A set cannot be a range
endpoint, a reversed range is an error, a trailing dash is a literal, and
an empty class is Go's missing-bracket error. -/
def clsStep (neg : Bool) (items : List (Char × Char)) (cp : ClsPos) :
    ClsTok → Except PErr ClsCont
  | .lit c =>
    match cp with
    | .n0 => .ok (.more neg items (.pend c))
    | .pend p => .ok (.more neg ((p, p) :: items) (.pend c))
    | .pendDash p =>
      if p ≤ c then .ok (.more neg ((p, c) :: items) .n0)
      else .error (.fatal "invalid character class range")
  | .rawDash =>
    match cp with
    | .n0 => .ok (.more neg items (.pend '-'))
    | .pend p => .ok (.more neg items (.pendDash p))
    | .pendDash p =>
      if p ≤ '-' then .ok (.more neg ((p, '-') :: items) .n0)
      else .error (.fatal "invalid character class range")
  | .set rs =>
    match cp with
    | .n0 => .ok (.more neg (rs ++ items) .n0)
    | .pend p => .ok (.more neg (rs ++ (p, p) :: items) .n0)
    | .pendDash _ => .error (.fatal "invalid character class range")
  | .close =>
    match cp with
    | .n0 =>
      if items.isEmpty then .error (.fatal "missing closing ]")
      else .ok (.done neg items)
    | .pend p => .ok (.done neg ((p, p) :: items))
    | .pendDash p => .ok (.done neg (('-', '-') :: (p, p) :: items))

/-- Convert a digit list to the number it denotes. -/
def digitsToNat (ds : List Char) : Nat :=
  ds.foldl (fun a c => a * 10 + (c.toNat - 48)) 0

/-- Look at the text after an opening brace for Go's counted-repetition
shape `m}`, `m,}` or `m,n}`.  Returns the minimum, the maximum (`none`
for an unbounded `{m,}`) and the input after the closing brace, or `none`
when the text does not have repetition shape — in which case Go treats
the brace as a literal character. -/
def repScan (l : List Char) : Option (Nat × Option Nat × List Char) :=
  let d1 := l.takeWhile (fun c => c.isDigit)
  let r1 := l.dropWhile (fun c => c.isDigit)
  if d1.isEmpty then none
  else
    match r1 with
    | '}' :: r2 => some (digitsToNat d1, some (digitsToNat d1), r2)
    | ',' :: r2 =>
      let d2 := r2.takeWhile (fun c => c.isDigit)
      let r3 := r2.dropWhile (fun c => c.isDigit)
      match r3 with
      | '}' :: r4 =>
        if d2.isEmpty then some (digitsToNat d1, none, r4)
        else some (digitsToNat d1, some (digitsToNat d2), r4)
      | _ => none
    | _ => none

/-- Go's validity condition on a counted repetition: both bounds at most
1000 and the minimum at most the maximum. -/
def repOk (mn : Nat) (mx : Option Nat) : Bool :=
  decide (mn ≤ 1000) &&
    match mx with
    | some n => decide (n ≤ 1000) && decide (mn ≤ n)
    | none => true

/-- Parser modes: `norm` is ordinary scanning, `cls` is inside a
character class (negation flag, ranges accumulated so far, position
state), `gname` is inside the name of a named capture group. -/
inductive PMode : Type
  | norm : PMode
  | cls : Bool → List (Char × Char) → ClsPos → PMode
  | gname : List Char → PMode

/-- Left-nested concatenation of the factors accumulated (in reverse) for
the current alternative; the empty factor list denotes the empty regex. -/
def catFold (cur : List Regex) : Regex :=
  match cur.reverse with
  | [] => .empty
  | f :: fs => fs.foldl .cat f

/-- Fold the completed alternatives (accumulated in reverse) and the
current one into a single regex; alternation associates to the left so
that earlier alternatives keep backtracking priority. -/
def finish (alts cur : List Regex) : Regex :=
  match (catFold cur :: alts).reverse with
  | [] => .empty
  | a :: rest => rest.foldl .alt a

/-- Character-by-character regular-expression parser for the fragment of
Go's syntax described in the header.  The stack holds one frame per open
group: its capture index (`none` for a non-capturing group) and the saved
alternatives and factors of the enclosing context.  `next` is the index
the next capturing group receives (groups are numbered 1, 2, … in order
of their opening parenthesis, as in Go) and `names` the capture-group
names seen so far, for duplicate detection.  Postfix operators apply to
the single preceding factor; applying one to a factor that is already a
repetition is Go's nested-repetition error, except that a single `?`
turns a greedy repetition into a lazy one.  The first argument is fuel:
every step consumes at least one input character, so the initial fuel
`length + 2` never runs out; exhaustion is reported as `unsupported`,
deciding nothing. -/
def pLoop : Nat → List Char → PMode → List (Option Nat × List Regex × List Regex) →
    List Regex → List Regex → Nat → List (List Char) → Except PErr (Regex × Nat)
  | 0, _, _, _, _, _, _, _ => .error (.unsupported "parser fuel exhausted")
  | _ + 1, [], .norm, [], alts, cur, next, _ => .ok (finish alts cur, next - 1)
  | _ + 1, [], .norm, _ :: _, _, _, _, _ => .error (.fatal "missing closing )")
  | _ + 1, [], .cls _ _ _, _, _, _, _, _ => .error (.fatal "missing closing ]")
  | _ + 1, [], .gname _, _, _, _, _, _ => .error (.fatal "invalid named capture")
  | f + 1, c :: rest, .gname acc, stack, alts, cur, next, names =>
    if c = '>' then
      if acc.isEmpty then .error (.fatal "invalid named capture")
      else if names.contains acc then .error (.fatal "duplicate capture group name")
      else pLoop f rest .norm stack alts cur next (acc :: names)
    else if isWord c then pLoop f rest (.gname (c :: acc)) stack alts cur next names
    else .error (.fatal "invalid named capture")
  | f + 1, c :: rest, .cls neg items cp, stack, alts, cur, next, names =>
    if c = '\\' then
      match rest with
      | [] => .error (.fatal "trailing backslash at end of expression")
      | e :: rest2 =>
        match escResolve e with
        | .lit ch =>
          match clsStep neg items cp (.lit ch) with
          | .error err => .error err
          | .ok (.more neg1 items1 cp1) =>
            pLoop f rest2 (.cls neg1 items1 cp1) stack alts cur next names
          | .ok (.done neg1 items1) =>
            pLoop f rest2 .norm stack alts (.cls neg1 items1 :: cur) next names
        | .set negSet base comp =>
          match clsStep neg items cp (.set (if negSet then comp else base)) with
          | .error err => .error err
          | .ok (.more neg1 items1 cp1) =>
            pLoop f rest2 (.cls neg1 items1 cp1) stack alts cur next names
          | .ok (.done neg1 items1) =>
            pLoop f rest2 .norm stack alts (.cls neg1 items1 :: cur) next names
        | .anch _ => .error (.fatal "invalid escape sequence in character class")
        | .unk msg => .error (.unsupported msg)
        | .bad msg => .error (.fatal msg)
    else if c = '[' ∧ rest.head? = some ':' then
      .error (.unsupported "named character class")
    else if c = ']' then
      match clsStep neg items cp .close with
      | .error err => .error err
      | .ok (.more neg1 items1 cp1) =>
        pLoop f rest (.cls neg1 items1 cp1) stack alts cur next names
      | .ok (.done neg1 items1) =>
        pLoop f rest .norm stack alts (.cls neg1 items1 :: cur) next names
    else if c = '-' then
      match clsStep neg items cp .rawDash with
      | .error err => .error err
      | .ok (.more neg1 items1 cp1) =>
        pLoop f rest (.cls neg1 items1 cp1) stack alts cur next names
      | .ok (.done neg1 items1) =>
        pLoop f rest .norm stack alts (.cls neg1 items1 :: cur) next names
    else if c = '^' ∧ neg = false ∧ items = [] ∧ cp = ClsPos.n0 then
      pLoop f rest (.cls true [] .n0) stack alts cur next names
    else
      match clsStep neg items cp (.lit c) with
      | .error err => .error err
      | .ok (.more neg1 items1 cp1) =>
        pLoop f rest (.cls neg1 items1 cp1) stack alts cur next names
      | .ok (.done neg1 items1) =>
        pLoop f rest .norm stack alts (.cls neg1 items1 :: cur) next names
  | f + 1, c :: rest, .norm, stack, alts, cur, next, names =>
    if c = '(' then
      if 1000 ≤ stack.length then .error (.fatal "expression nests too deeply")
      else
        match rest with
        | '?' :: ':' :: rest2 =>
          pLoop f rest2 .norm ((none, alts, cur) :: stack) [] [] next names
        | '?' :: 'P' :: '<' :: rest2 =>
          pLoop f rest2 (.gname []) ((some next, alts, cur) :: stack) [] [] (next + 1) names
        | '?' :: 'P' :: _ => .error (.fatal "invalid named capture")
        | '?' :: '<' :: rest2 =>
          pLoop f rest2 (.gname []) ((some next, alts, cur) :: stack) [] [] (next + 1) names
        | '?' :: _ => .error (.unsupported "group flags or extended group syntax")
        | _ => pLoop f rest .norm ((some next, alts, cur) :: stack) [] [] (next + 1) names
    else if c = ')' then
      match stack with
      | [] => .error (.fatal "unexpected )")
      | (some g, salts, scur) :: stk =>
        pLoop f rest .norm stk salts (.group g (finish alts cur) :: scur) next names
      | (none, salts, scur) :: stk =>
        pLoop f rest .norm stk salts (.ncg (finish alts cur) :: scur) next names
    else if c = '|' then pLoop f rest .norm stack (catFold cur :: alts) [] next names
    else if c = '*' then
      match cur with
      | [] => .error (.fatal "missing argument to repetition operator")
      | .rep _ _ _ _ :: _ => .error (.fatal "invalid nested repetition operator")
      | fct :: fs => pLoop f rest .norm stack alts (.rep 0 none true fct :: fs) next names
    else if c = '+' then
      match cur with
      | [] => .error (.fatal "missing argument to repetition operator")
      | .rep _ _ _ _ :: _ => .error (.fatal "invalid nested repetition operator")
      | fct :: fs => pLoop f rest .norm stack alts (.rep 1 none true fct :: fs) next names
    else if c = '?' then
      match cur with
      | [] => .error (.fatal "missing argument to repetition operator")
      | .rep mn mx true r :: fs =>
        pLoop f rest .norm stack alts (.rep mn mx false r :: fs) next names
      | .rep _ _ false _ :: _ => .error (.fatal "invalid nested repetition operator")
      | fct :: fs => pLoop f rest .norm stack alts (.rep 0 (some 1) true fct :: fs) next names
    else if c = '{' then
      match repScan rest with
      | none => pLoop f rest .norm stack alts (.char '{' :: cur) next names
      | some (mn, mx, rest2) =>
        if repOk mn mx = false then .error (.fatal "invalid repeat count")
        else
          match cur with
          | [] => .error (.fatal "missing argument to repetition operator")
          | .rep _ _ _ _ :: _ => .error (.fatal "invalid nested repetition operator")
          | fct :: fs => pLoop f rest2 .norm stack alts (.rep mn mx true fct :: fs) next names
    else if c = '^' then pLoop f rest .norm stack alts (.begins :: cur) next names
    else if c = '$' then pLoop f rest .norm stack alts (.ends :: cur) next names
    else if c = '.' then pLoop f rest .norm stack alts (.any :: cur) next names
    else if c = '[' then pLoop f rest (.cls false [] .n0) stack alts cur next names
    else if c = '\\' then
      match rest with
      | [] => .error (.fatal "trailing backslash at end of expression")
      | e :: rest2 =>
        match escResolve e with
        | .lit ch => pLoop f rest2 .norm stack alts (.char ch :: cur) next names
        | .set negSet base _ =>
          pLoop f rest2 .norm stack alts (.cls negSet base :: cur) next names
        | .anch k => pLoop f rest2 .norm stack alts (anchRegex k :: cur) next names
        | .unk msg => .error (.unsupported msg)
        | .bad msg => .error (.fatal msg)
    else pLoop f rest .norm stack alts (.char c :: cur) next names

/-- Embedding of `regexp.MustCompile` on the route patterns: parse the
pattern string and report the regex together with its number of capturing
groups (Go's `NumSubexp`).  A genuine syntax error — on which Go panics
at this point — is returned as `Except.error (.fatal _)`; a construct
outside the modelled fragment is `Except.error (.unsupported _)`, about
which nothing is asserted. -/
def compile (pat : String) : Except PErr (Regex × Nat) :=
  pLoop (pat.data.length + 2) pat.data .norm [] [] [] 1 []

/-- A registered route: the compiled regular expression (with its group
count) and the registered function, represented opaquely by a value of
`α`. -/
structure Route (α : Type) where
  re : Regex
  ngroups : Nat
  f : α
deriving DecidableEq, Repr

/-- The handler object: the ordered route table. -/
structure RegexpHandler (α : Type) where
  routes : List (Route α)
deriving DecidableEq, Repr

/-- Embedding of `NewRegexpHandler`: an empty route table. -/
def NewRegexpHandler {α : Type} : RegexpHandler α := ⟨[]⟩

/-- Embedding of `(*RegexpHandler).Add`: compile `"^" + expression + "$"`
and append the new route at the end of the table.  The `MustCompile`
panic on an invalid pattern is modelled by returning the parse error, in
which case no table is produced. -/
def RegexpHandler.Add {α : Type} (h : RegexpHandler α) (expression : String) (function : α) :
    Except PErr (RegexpHandler α) :=
  match compile ("^" ++ expression ++ "$") with
  | .error e => .error e
  | .ok (re, n) => .ok ⟨h.routes ++ [⟨re, n, function⟩]⟩

/-- Register a list of (pattern, function) pairs in order by repeated
`Add` calls, stopping at the first failure. -/
def addAll {α : Type} (h : RegexpHandler α) : List (String × α) → Except PErr (RegexpHandler α)
  | [] => .ok h
  | (e, f) :: ps =>
    match h.Add e f with
    | .error err => .error err
    | .ok h' => addAll h' ps

/-- The dispatch loop of `ServeHTTP`: scan the routes in order; at the
first route whose regex matches the path, invoke its function with
`matches[1:]` and stop.  The result is the list of invocations performed
(each an `(f, captures)` pair); `none` means the model ran out of fuel
inside the matcher and decides nothing. -/
def serveLoop {α : Type} : List (Route α) → String → Option (List (α × List String))
  | [], _ => some []
  | r :: rs, path =>
    match findStringSubmatch r.re r.ngroups path with
    | none => none
    | some none => serveLoop rs path
    | some (some m) => some [(r.f, m.drop 1)]

/-- Embedding of `(*RegexpHandler).ServeHTTP`: the method reads
`h.routes` and never writes it, so the handler state after the call is
`⟨h.routes⟩`; the second component is the list of handler invocations the
loop performs on the request path. -/
def RegexpHandler.ServeHTTP {α : Type} (h : RegexpHandler α) (path : String) :
    RegexpHandler α × Option (List (α × List String)) :=
  (⟨h.routes⟩, serveLoop h.routes path)

/-- Whether the route registered for pattern `e` matches path `s`: the
compiled anchored pattern's `FindStringSubmatch` returns non-nil. -/
def routeMatchesB (e s : String) : Bool :=
  match compile ("^" ++ e ++ "$") with
  | .error _ => false
  | .ok (r, n) =>
    match findStringSubmatch r n s with
    | some (some _) => true
    | _ => false

/-- Whether some match of the compiled regex `r` starts at position 0 and
ends at the end of `s`, i.e. `r` matches the entirety of `s`.  This is
the spec's notion of full-string matching, stated against the same
compiled regex the route uses. -/
def wholeMatchB (r : Regex) (s : String) : Bool :=
  match mlistF s.data (initFuel r s.data) r 0 [] with
  | some l => l.any (fun x => x.1 == s.length)
  | none => false

/-- Modelled from the spec: the pattern `e` itself, anchored at both ends
as a whole, matches the entire string `s` — the spec's description of
what registration is supposed to achieve.  Stated by compiling the bare
pattern and asking for a match spanning all of `s`. -/
def fullStringMatchB (e s : String) : Bool :=
  match compile e with
  | .error _ => false
  | .ok (r, _) => wholeMatchB r s

/-- Regexes whose left concatenation spine ends in the begin-of-text
anchor; every match of such a regex starts at position 0. -/
inductive LeftAnchored : Regex → Prop
  | base : LeftAnchored .begins
  | step {X y : Regex} : LeftAnchored X → LeftAnchored (.cat X y)

/-- Sum of the capture-group counts of a list of regexes. -/
def cgL : List Regex → Nat
  | [] => 0
  | r :: rs => cg r + cgL rs

/-- Sum of the capture-group counts stored in the parser's stack of open
groups. -/
def cgStk : List (Option Nat × List Regex × List Regex) → Nat
  | [] => 0
  | (_, salts, scur) :: s => cgL salts + cgL scur + cgStk s

/-- Number of capturing frames currently open in the parser's stack (a
non-capturing group reserves no index). -/
def capCnt : List (Option Nat × List Regex × List Regex) → Nat
  | [] => 0
  | (some _, _, _) :: s => 1 + capCnt s
  | (none, _, _) :: s => capCnt s

/-! Helper lemmas about the matcher and the dispatch loop. -/

theorem seqMapM_mem {A B : Type} (f : A → Option B) :
    ∀ (l : List A) (out : List B), seqMapM f l = some out →
      ∀ p ∈ out, ∃ x ∈ l, f x = some p := by
  intro l
  induction l with
  | nil =>
    intro out h p hp
    simp only [seqMapM, Option.some.injEq] at h
    subst h
    simp at hp
  | cons x xs ih =>
    intro out h p hp
    simp only [seqMapM] at h
    cases hfx : f x with
    | none => rw [hfx] at h; simp at h
    | some y =>
      rw [hfx] at h
      cases hrest : seqMapM f xs with
      | none => rw [hrest] at h; simp at h
      | some ys =>
        rw [hrest] at h
        simp only [Option.some.injEq] at h
        subst h
        rcases List.mem_cons.mp hp with hpy | hpys
        · exact ⟨x, List.mem_cons_self x xs, hpy ▸ hfx⟩
        · rcases ih ys hrest p hpys with ⟨x', hx', hfx'⟩
          exact ⟨x', List.mem_cons_of_mem x hx', hfx'⟩

theorem seqMapM_length {A B : Type} (f : A → Option B) :
    ∀ (l : List A) (out : List B), seqMapM f l = some out → out.length = l.length := by
  intro l
  induction l with
  | nil =>
    intro out h
    simp only [seqMapM, Option.some.injEq] at h
    subst h
    rfl
  | cons x xs ih =>
    intro out h
    simp only [seqMapM] at h
    cases hfx : f x with
    | none => rw [hfx] at h; simp at h
    | some y =>
      rw [hfx] at h
      cases hrest : seqMapM f xs with
      | none => rw [hrest] at h; simp at h
      | some ys =>
        rw [hrest] at h
        simp only [Option.some.injEq] at h
        subst h
        simp [ih ys hrest]

theorem renderMatch_length (s : List Char) (n a b : Nat) (caps : Caps) :
    (renderMatch s n a b caps).length = n + 1 := by
  simp [renderMatch]

theorem fsmAux_some_length (r : Regex) (n : Nat) (s : List Char) (fl : Nat) :
    ∀ (ps : List Nat) (m : List String), fsmAux r n s fl ps = some (some m) →
      m.length = n + 1 := by
  intro ps
  induction ps with
  | nil => intro m h; simp [fsmAux] at h
  | cons pos rest ih =>
    intro m h
    simp only [fsmAux] at h
    cases hm : mlistF s fl r pos [] with
    | none => rw [hm] at h; simp at h
    | some l =>
      rw [hm] at h
      cases l with
      | nil => exact ih m h
      | cons x t =>
        simp only [Option.some.injEq] at h
        subst h
        exact renderMatch_length s n pos x.1 x.2

theorem fsm_some_length (r : Regex) (n : Nat) (p : String) (m : List String) :
    findStringSubmatch r n p = some (some m) → m.length = n + 1 := by
  intro h
  exact fsmAux_some_length r n p.data (initFuel r p.data) (List.range (p.length + 1)) m h

theorem fsmAux_exists_pos (r : Regex) (n : Nat) (s : List Char) (fl : Nat) :
    ∀ (ps : List Nat) (m : List String), fsmAux r n s fl ps = some (some m) →
      ∃ pos ∈ ps, ∃ x t, mlistF s fl r pos [] = some (x :: t) ∧
        m = renderMatch s n pos x.1 x.2 := by
  intro ps
  induction ps with
  | nil => intro m h; simp [fsmAux] at h
  | cons pos rest ih =>
    intro m h
    simp only [fsmAux] at h
    cases hm : mlistF s fl r pos [] with
    | none => rw [hm] at h; simp at h
    | some l =>
      rw [hm] at h
      cases l with
      | nil =>
        rcases ih m h with ⟨pos', hmem, x, t, hml, hr⟩
        exact ⟨pos', List.mem_cons_of_mem pos hmem, x, t, hml, hr⟩
      | cons x t =>
        simp only [Option.some.injEq] at h
        exact ⟨pos, List.mem_cons_self pos rest, x, t, hm, h.symm⟩

theorem mlistF_catEnds_elem (s : List Char) (R : Regex) :
    ∀ (fl pos : Nat) (caps : Caps) (l : List (Nat × Caps)),
      mlistF s fl (.cat R .ends) pos caps = some l → ∀ y ∈ l, y.1 = s.length := by
  intro fl pos caps l h y hy
  cases fl with
  | zero => simp [mlistF] at h
  | succ fl' =>
    simp only [mlistF] at h
    split at h
    · simp at h
    · rename_i l0 hR
      split at h
      · simp at h
      · rename_i parts hq
        simp only [Option.some.injEq] at h
        subst h
        rcases List.mem_flatten.mp hy with ⟨part, hpart, hyp⟩
        rcases seqMapM_mem _ l0 parts hq part hpart with ⟨x, _, hfx⟩
        cases fl' with
        | zero => simp [mlistF] at hfx
        | succ fl'' =>
          simp only [mlistF] at hfx
          by_cases hx : x.1 = s.length
          · rw [if_pos hx] at hfx
            simp only [Option.some.injEq] at hfx
            subst hfx
            rcases List.mem_singleton.mp hyp with rfl
            exact hx
          · rw [if_neg hx] at hfx
            simp only [Option.some.injEq] at hfx
            subst hfx
            simp at hyp

theorem mlistF_catEnds_sub (s : List Char) (R : Regex) :
    ∀ (fl pos : Nat) (caps : Caps) (l : List (Nat × Caps)),
      mlistF s fl (.cat R .ends) pos caps = some l → l ≠ [] →
        ∃ fl' l0, fl = fl' + 1 ∧ mlistF s fl' R pos caps = some l0 ∧ l0 ≠ [] := by
  intro fl pos caps l h hne
  cases fl with
  | zero => simp [mlistF] at h
  | succ fl' =>
    simp only [mlistF] at h
    split at h
    · simp at h
    · rename_i l0 hR
      split at h
      · simp at h
      · rename_i parts hq
        simp only [Option.some.injEq] at h
        subst h
        refine ⟨fl', l0, rfl, hR, ?_⟩
        intro h0
        subst h0
        simp only [seqMapM, Option.some.injEq] at hq
        subst hq
        simp at hne

theorem leftAnchored_pos_zero {X : Regex} (hX : LeftAnchored X) (s : List Char) :
    ∀ (fl pos : Nat) (caps : Caps) (l : List (Nat × Caps)),
      mlistF s fl X pos caps = some l → l ≠ [] → pos = 0 := by
  induction hX with
  | base =>
    intro fl pos caps l h hne
    cases fl with
    | zero => simp [mlistF] at h
    | succ fl' =>
      simp only [mlistF, Option.some.injEq] at h
      subst h
      by_contra hpos
      rw [if_neg hpos] at hne
      exact hne rfl
  | step hX' ih =>
    intro fl pos caps l h hne
    cases fl with
    | zero => simp [mlistF] at h
    | succ fl' =>
      simp only [mlistF] at h
      split at h
      · simp at h
      · rename_i l0 hR
        split at h
        · simp at h
        · rename_i parts hq
          simp only [Option.some.injEq] at h
          subst h
          refine ih fl' pos caps l0 hR ?_
          intro h0
          subst h0
          simp only [seqMapM, Option.some.injEq] at hq
          subst hq
          simp at hne

theorem serveLoop_first {α : Type} :
    ∀ (rs : List (Route α)) (p : String) (i : Nat) (r : Route α) (m : List String),
      rs[i]? = some r →
      findStringSubmatch r.re r.ngroups p = some (some m) →
      (∀ j rj, j < i → rs[j]? = some rj →
        findStringSubmatch rj.re rj.ngroups p = some none) →
      serveLoop rs p = some [(r.f, m.drop 1)] := by
  intro rs
  induction rs with
  | nil => intro p i r m h _ _; simp at h
  | cons r0 rest ih =>
    intro p i r m h hm hprev
    cases i with
    | zero =>
      simp only [List.getElem?_cons_zero, Option.some.injEq] at h
      subst h
      simp only [serveLoop, hm]
    | succ i' =>
      have h0 : findStringSubmatch r0.re r0.ngroups p = some none :=
        hprev 0 r0 (Nat.succ_pos i') (by simp)
      simp only [List.getElem?_cons_succ] at h
      simp only [serveLoop, h0]
      refine ih p i' r m h hm ?_
      intro j rj hj hg
      exact hprev (j + 1) rj (Nat.succ_lt_succ hj) (by simpa using hg)

theorem serveLoop_len {α : Type} :
    ∀ (rs : List (Route α)) (p : String) (invs : List (α × List String)),
      serveLoop rs p = some invs → invs.length ≤ 1 := by
  intro rs
  induction rs with
  | nil =>
    intro p invs h
    simp only [serveLoop, Option.some.injEq] at h
    subst h
    simp
  | cons r rest ih =>
    intro p invs h
    simp only [serveLoop] at h
    split at h
    · simp at h
    · exact ih p invs h
    · simp only [Option.some.injEq] at h
      subst h
      simp

theorem serveLoop_mem {α : Type} :
    ∀ (rs : List (Route α)) (p : String) (invs : List (α × List String))
      (f : α) (cs : List String),
      serveLoop rs p = some invs → (f, cs) ∈ invs →
      ∃ r ∈ rs, f = r.f ∧
        ∃ m, findStringSubmatch r.re r.ngroups p = some (some m) ∧ cs = m.drop 1 := by
  intro rs
  induction rs with
  | nil =>
    intro p invs f cs h hmem
    simp only [serveLoop, Option.some.injEq] at h
    subst h
    simp at hmem
  | cons r0 rest ih =>
    intro p invs f cs h hmem
    simp only [serveLoop] at h
    split at h
    · simp at h
    · rcases ih p invs f cs h hmem with ⟨r, hr, hres⟩
      exact ⟨r, List.mem_cons_of_mem r0 hr, hres⟩
    · rename_i m hm
      simp only [Option.some.injEq] at h
      subst h
      rcases List.mem_singleton.mp hmem with hpair
      have hf : f = r0.f := congrArg Prod.fst hpair
      have hcs : cs = m.drop 1 := congrArg Prod.snd hpair
      exact ⟨r0, List.mem_cons_self r0 rest, hf, m, hm, hcs⟩

theorem Add_ok {α : Type} (t : RegexpHandler α) (e : String) (fn : α) (t' : RegexpHandler α) :
    RegexpHandler.Add t e fn = .ok t' →
    ∃ r n, compile ("^" ++ e ++ "$") = .ok (r, n) ∧ t'.routes = t.routes ++ [⟨r, n, fn⟩] := by
  intro h
  unfold RegexpHandler.Add at h
  split at h
  · simp at h
  · rename_i re n hc
    simp only [Except.ok.injEq] at h
    subst h
    exact ⟨re, n, hc, rfl⟩

theorem serveLoop_all_none {α : Type} :
    ∀ (rs : List (Route α)) (p : String),
      (∀ r ∈ rs, findStringSubmatch r.re r.ngroups p = some none) →
      serveLoop rs p = some [] := by
  intro rs
  induction rs with
  | nil => intro p _; rfl
  | cons r0 rest ih =>
    intro p hall
    have h0 := hall r0 (List.mem_cons_self r0 rest)
    simp only [serveLoop, h0]
    exact ih p (fun r hr => hall r (List.mem_cons_of_mem r0 hr))

theorem addAll_ok {α : Type} :
    ∀ (ps : List (String × α)) (t t' : RegexpHandler α), addAll t ps = .ok t' →
      t'.routes.length = t.routes.length + ps.length ∧
      (∀ i, i < t.routes.length → t'.routes[i]? = t.routes[i]?) ∧
      (∀ i e fn, ps[i]? = some (e, fn) →
        ∃ r n, compile ("^" ++ e ++ "$") = .ok (r, n) ∧
          t'.routes[t.routes.length + i]? = some ⟨r, n, fn⟩) := by
  intro ps
  induction ps with
  | nil =>
    intro t t' h
    simp only [addAll, Except.ok.injEq] at h
    subst h
    refine ⟨rfl, fun i _ => rfl, ?_⟩
    intro i e fn hp
    simp at hp
  | cons p ps' ih =>
    intro t t' h
    obtain ⟨e, fn⟩ := p
    simp only [addAll] at h
    split at h
    · simp at h
    · rename_i t1 hAdd
      obtain ⟨r, n, hc, hroutes⟩ := Add_ok t e fn t1 hAdd
      obtain ⟨hlen, hpre, hnew⟩ := ih t1 t' h
      have hlen1 : t1.routes.length = t.routes.length + 1 := by
        rw [hroutes]; simp
      refine ⟨?_, ?_, ?_⟩
      · rw [hlen, hlen1]
        simp [Nat.add_assoc, Nat.add_comm 1 ps'.length]
      · intro i hi
        rw [hpre i (by omega)]
        rw [hroutes]
        exact List.getElem?_append_left hi
      · intro i e' fn' hp
        cases i with
        | zero =>
          simp only [List.getElem?_cons_zero, Option.some.injEq, Prod.mk.injEq] at hp
          obtain ⟨he, hf⟩ := hp
          subst he
          subst hf
          refine ⟨r, n, hc, ?_⟩
          have step1 : t'.routes[t.routes.length + 0]? = t1.routes[t.routes.length]? := by
            simpa using hpre t.routes.length (by omega)
          rw [step1, hroutes]
          simp
        | succ i' =>
          simp only [List.getElem?_cons_succ] at hp
          rcases hnew i' e' fn' hp with ⟨r', n', hc', hg⟩
          refine ⟨r', n', hc', ?_⟩
          rw [← hg, hlen1]
          congr 1
          omega

theorem cgL_append : ∀ (l1 l2 : List Regex), cgL (l1 ++ l2) = cgL l1 + cgL l2 := by
  intro l1 l2
  induction l1 with
  | nil => simp [cgL]
  | cons r rs ih => simp [cgL, ih]; omega

theorem cgL_reverse : ∀ (l : List Regex), cgL l.reverse = cgL l := by
  intro l
  induction l with
  | nil => rfl
  | cons r rs ih => simp [cgL, List.reverse_cons, cgL_append, ih]; omega

theorem cg_foldl_cat : ∀ (fs : List Regex) (a : Regex), cg (fs.foldl .cat a) = cg a + cgL fs := by
  intro fs
  induction fs with
  | nil => intro a; simp [cgL]
  | cons f fs' ih => intro a; simp [List.foldl_cons, ih, cg, cgL]; omega

theorem cg_foldl_alt : ∀ (fs : List Regex) (a : Regex), cg (fs.foldl .alt a) = cg a + cgL fs := by
  intro fs
  induction fs with
  | nil => intro a; simp [cgL]
  | cons f fs' ih => intro a; simp [List.foldl_cons, ih, cg, cgL]; omega

theorem cg_catFold : ∀ (cur : List Regex), cg (catFold cur) = cgL cur := by
  intro cur
  unfold catFold
  cases hrev : cur.reverse with
  | nil =>
    have : cur = [] := by simpa using congrArg List.reverse hrev
    subst this
    simp [cg, cgL]
  | cons f fs =>
    have : cgL (f :: fs) = cgL cur := by rw [← hrev, cgL_reverse]
    rw [cg_foldl_cat]
    simp only [cgL] at this
    omega

theorem cg_finish : ∀ (alts cur : List Regex), cg (finish alts cur) = cgL alts + cgL cur := by
  intro alts cur
  unfold finish
  cases hrev : (catFold cur :: alts).reverse with
  | nil => simp at hrev
  | cons a rest =>
    have : cgL (a :: rest) = cgL (catFold cur :: alts) := by rw [← hrev, cgL_reverse]
    simp only [cgL, cg_catFold] at this
    rw [cg_foldl_alt]
    omega

theorem cg_anchRegex (k : AnchKind) : cg (anchRegex k) = 0 := by
  cases k <;> rfl

set_option maxHeartbeats 4000000 in
theorem pLoop_cg :
    ∀ (fl : Nat) (cs : List Char) (mode : PMode)
      (stack : List (Option Nat × List Regex × List Regex))
      (alts cur : List Regex) (next : Nat) (names : List (List Char)) (r : Regex) (n : Nat),
      pLoop fl cs mode stack alts cur next names = .ok (r, n) →
      next = 1 + cgStk stack + cgL alts + cgL cur + capCnt stack →
      cg r = n := by
  intro fl
  induction fl with
  | zero =>
    intro cs mode stack alts cur next names r n h hinv
    simp [pLoop] at h
  | succ f ih =>
    intro cs mode stack alts cur next names r n h hinv
    cases cs with
    | nil =>
      cases mode with
      | norm =>
        cases stack with
        | nil =>
          simp only [pLoop, Except.ok.injEq, Prod.mk.injEq] at h
          obtain ⟨hr, hn⟩ := h
          subst hr
          subst hn
          rw [cg_finish]
          simp only [cgStk, capCnt] at hinv
          omega
        | cons fr stk => simp [pLoop] at h
      | cls neg items cp => simp [pLoop] at h
      | gname acc => simp [pLoop] at h
    | cons c rest =>
      cases mode with
      | gname acc =>
        simp only [pLoop] at h
        repeat' split at h
        all_goals
          first
          | (simp at h; done)
          | exact ih _ _ _ _ _ _ _ _ _ h (by
              try simp only [cgStk, capCnt, cgL, cg, cg_finish, cg_catFold,
                cg_anchRegex] at hinv ⊢
              omega)
      | cls neg items cp =>
        simp only [pLoop] at h
        by_cases hd1 : c = '\\'
        · rw [if_pos hd1] at h
          repeat' split at h
          all_goals
            first
            | (simp at h; done)
            | exact ih _ _ _ _ _ _ _ _ _ h (by
                try simp only [cgStk, capCnt, cgL, cg, cg_finish, cg_catFold,
                  cg_anchRegex] at hinv ⊢
                omega)
        · rw [if_neg hd1] at h
          by_cases hd2 : c = '[' ∧ rest.head? = some ':'
          · rw [if_pos hd2] at h
            simp at h
          · rw [if_neg hd2] at h
            by_cases hd3 : c = ']'
            · rw [if_pos hd3] at h
              repeat' split at h
              all_goals
                first
                | (simp at h; done)
                | exact ih _ _ _ _ _ _ _ _ _ h (by
                    try simp only [cgStk, capCnt, cgL, cg, cg_finish, cg_catFold,
                      cg_anchRegex] at hinv ⊢
                    omega)
            · rw [if_neg hd3] at h
              by_cases hd4 : c = '-'
              · rw [if_pos hd4] at h
                repeat' split at h
                all_goals
                  first
                  | (simp at h; done)
                  | exact ih _ _ _ _ _ _ _ _ _ h (by
                      try simp only [cgStk, capCnt, cgL, cg, cg_finish, cg_catFold,
                        cg_anchRegex] at hinv ⊢
                      omega)
              · rw [if_neg hd4] at h
                by_cases hd5 : c = '^' ∧ neg = false ∧ items = [] ∧ cp = ClsPos.n0
                · rw [if_pos hd5] at h
                  first
                  | (simp at h; done)
                  | exact ih _ _ _ _ _ _ _ _ _ h (by
                      try simp only [cgStk, capCnt, cgL, cg, cg_finish, cg_catFold,
                        cg_anchRegex] at hinv ⊢
                      omega)
                · rw [if_neg hd5] at h
                  repeat' split at h
                  all_goals
                    first
                    | (simp at h; done)
                    | exact ih _ _ _ _ _ _ _ _ _ h (by
                        try simp only [cgStk, capCnt, cgL, cg, cg_finish, cg_catFold,
                          cg_anchRegex] at hinv ⊢
                        omega)
      | norm =>
        simp only [pLoop] at h
        by_cases hc1 : c = '('
        · rw [if_pos hc1] at h
          repeat' split at h
          all_goals
            first
            | (simp at h; done)
            | exact ih _ _ _ _ _ _ _ _ _ h (by
                try simp only [cgStk, capCnt, cgL, cg, cg_finish, cg_catFold,
                  cg_anchRegex] at hinv ⊢
                omega)
        · rw [if_neg hc1] at h
          by_cases hc2 : c = ')'
          · rw [if_pos hc2] at h
            repeat' split at h
            all_goals
              first
              | (simp at h; done)
              | exact ih _ _ _ _ _ _ _ _ _ h (by
                  try simp only [cgStk, capCnt, cgL, cg, cg_finish, cg_catFold,
                    cg_anchRegex] at hinv ⊢
                  omega)
          · rw [if_neg hc2] at h
            by_cases hc3 : c = '|'
            · rw [if_pos hc3] at h
              first
              | (simp at h; done)
              | exact ih _ _ _ _ _ _ _ _ _ h (by
                  try simp only [cgStk, capCnt, cgL, cg, cg_finish, cg_catFold,
                    cg_anchRegex] at hinv ⊢
                  omega)
            · rw [if_neg hc3] at h
              by_cases hc4 : c = '*'
              · rw [if_pos hc4] at h
                repeat' split at h
                all_goals
                  first
                  | (simp at h; done)
                  | exact ih _ _ _ _ _ _ _ _ _ h (by
                      try simp only [cgStk, capCnt, cgL, cg, cg_finish, cg_catFold,
                        cg_anchRegex] at hinv ⊢
                      omega)
              · rw [if_neg hc4] at h
                by_cases hc5 : c = '+'
                · rw [if_pos hc5] at h
                  repeat' split at h
                  all_goals
                    first
                    | (simp at h; done)
                    | exact ih _ _ _ _ _ _ _ _ _ h (by
                        try simp only [cgStk, capCnt, cgL, cg, cg_finish, cg_catFold,
                          cg_anchRegex] at hinv ⊢
                        omega)
                · rw [if_neg hc5] at h
                  by_cases hc6 : c = '?'
                  · rw [if_pos hc6] at h
                    repeat' split at h
                    all_goals
                      first
                      | (simp at h; done)
                      | exact ih _ _ _ _ _ _ _ _ _ h (by
                          try simp only [cgStk, capCnt, cgL, cg, cg_finish, cg_catFold,
                            cg_anchRegex] at hinv ⊢
                          omega)
                  · rw [if_neg hc6] at h
                    by_cases hc7 : c = '{'
                    · rw [if_pos hc7] at h
                      repeat' split at h
                      all_goals
                        first
                        | (simp at h; done)
                        | exact ih _ _ _ _ _ _ _ _ _ h (by
                            try simp only [cgStk, capCnt, cgL, cg, cg_finish, cg_catFold,
                              cg_anchRegex] at hinv ⊢
                            omega)
                    · rw [if_neg hc7] at h
                      by_cases hc8 : c = '^'
                      · rw [if_pos hc8] at h
                        first
                        | (simp at h; done)
                        | exact ih _ _ _ _ _ _ _ _ _ h (by
                            try simp only [cgStk, capCnt, cgL, cg, cg_finish, cg_catFold,
                              cg_anchRegex] at hinv ⊢
                            omega)
                      · rw [if_neg hc8] at h
                        by_cases hc9 : c = '$'
                        · rw [if_pos hc9] at h
                          first
                          | (simp at h; done)
                          | exact ih _ _ _ _ _ _ _ _ _ h (by
                              try simp only [cgStk, capCnt, cgL, cg, cg_finish, cg_catFold,
                                cg_anchRegex] at hinv ⊢
                              omega)
                        · rw [if_neg hc9] at h
                          by_cases hc10 : c = '.'
                          · rw [if_pos hc10] at h
                            first
                            | (simp at h; done)
                            | exact ih _ _ _ _ _ _ _ _ _ h (by
                                try simp only [cgStk, capCnt, cgL, cg, cg_finish, cg_catFold,
                                  cg_anchRegex] at hinv ⊢
                                omega)
                          · rw [if_neg hc10] at h
                            by_cases hc11 : c = '['
                            · rw [if_pos hc11] at h
                              first
                              | (simp at h; done)
                              | exact ih _ _ _ _ _ _ _ _ _ h (by
                                  try simp only [cgStk, capCnt, cgL, cg, cg_finish, cg_catFold,
                                    cg_anchRegex] at hinv ⊢
                                  omega)
                            · rw [if_neg hc11] at h
                              by_cases hc12 : c = '\\'
                              · rw [if_pos hc12] at h
                                repeat' split at h
                                all_goals
                                  first
                                  | (simp at h; done)
                                  | exact ih _ _ _ _ _ _ _ _ _ h (by
                                      try simp only [cgStk, capCnt, cgL, cg, cg_finish, cg_catFold,
                                        cg_anchRegex] at hinv ⊢
                                      omega)
                              · rw [if_neg hc12] at h
                                first
                                | (simp at h; done)
                                | exact ih _ _ _ _ _ _ _ _ _ h (by
                                    try simp only [cgStk, capCnt, cgL, cg, cg_finish, cg_catFold,
                                      cg_anchRegex] at hinv ⊢
                                    omega)

theorem compile_cg (e : String) (r : Regex) (n : Nat) :
    compile e = .ok (r, n) → cg r = n := by
  intro h
  exact pLoop_cg (e.data.length + 2) e.data .norm [] [] [] 1 [] r n h
    (by simp [cgStk, cgL, capCnt])

/-! Claim theorems. -/

/-- C1 (counterexample): it is not true that whenever more than one
registered pattern matches the dispatched path as a full string, the
handler of the smallest full-string-matching index is the one invoked.
Register "a|b", "ax", "ax" (handlers 0, 1, 2) and dispatch "ax": patterns
at indices 1 and 2 both full-string match "ax" while the pattern at index
0 does not, yet dispatch invokes handler 0 — because the textual
anchoring of "a|b" yields the regex with branches (^a) and (b$), whose
branch ^a matches the prefix of "ax". -/
theorem c1_counterexample :
    fullStringMatchB "ax" "ax" = true ∧
    fullStringMatchB "a|b" "ax" = false ∧
    Except.map (fun t => serveLoop t.routes "ax")
      (addAll (α := Nat) NewRegexpHandler [("a|b", 0), ("ax", 1), ("ax", 2)]) =
      .ok (some [(0, [])]) :=
  ⟨rfl, rfl, rfl⟩

/-- C1 (amended): for every route table and path, if a route matches the
path in the sense the code uses (its compiled anchored pattern finds a
match), every earlier route does not, and at least one further route also
matches, then dispatch invokes exactly the first matching route's
handler, with its capture slice, and no other handler. -/
theorem c1_first_match_wins {α : Type} (rs : List (Route α)) (p : String) (i : Nat)
    (r : Route α) (m : List String)
    (hi : rs[i]? = some r)
    (hm : findStringSubmatch r.re r.ngroups p = some (some m))
    (hprev : ∀ j rj, j < i → rs[j]? = some rj →
      findStringSubmatch rj.re rj.ngroups p = some none)
    (_hmulti : ∃ k rk mk, i < k ∧ rs[k]? = some rk ∧
      findStringSubmatch rk.re rk.ngroups p = some (some mk)) :
    serveLoop rs p = some [(r.f, m.drop 1)] :=
  serveLoop_first rs p i r m hi hm hprev

/-- Witness for C1: two routes both compiled from pattern "a"; on path
"a" dispatch invokes only the first one's handler. -/
theorem c1_first_match_wins_witness :
    serveLoop [(⟨Regex.cat (Regex.cat Regex.begins (Regex.char 'a')) Regex.ends, 0, (10 : Nat)⟩ :
        Route Nat),
      ⟨Regex.cat (Regex.cat Regex.begins (Regex.char 'a')) Regex.ends, 0, 20⟩] "a" =
      some [(10, List.drop 1 ["a"])] :=
  c1_first_match_wins _ "a" 0
    ⟨Regex.cat (Regex.cat Regex.begins (Regex.char 'a')) Regex.ends, 0, (10 : Nat)⟩ ["a"] rfl rfl
    (fun j _ hj _ => absurd hj (Nat.not_lt_zero j))
    ⟨1, ⟨Regex.cat (Regex.cat Regex.begins (Regex.char 'a')) Regex.ends, 0, 20⟩, ["a"],
      Nat.zero_lt_one, rfl, rfl⟩

/-- C2 (counterexample): a route's match is not always a full-string
match of its pattern.  The pattern "a|b" registered through Add matches
the path "ax" (and dispatch invokes its handler there), although "a|b"
anchored at both ends does not match the entire string "ax": the textual
anchoring "^" + "a|b" + "$" parses as the alternation of ^a and b$,
since alternation has the lowest precedence. -/
theorem c2_counterexample :
    routeMatchesB "a|b" "ax" = true ∧
    fullStringMatchB "a|b" "ax" = false ∧
    Except.map (fun t => serveLoop t.routes "ax")
      (addAll (α := Nat) NewRegexpHandler [("a|b", 7)]) = .ok (some [(7, [])]) :=
  ⟨rfl, rfl, rfl⟩

/-- C2 (amended): registration matches the path against the regex parsed
from the textual concatenation "^" + e + "$".  Whenever that parse is a
concatenation that ends in the end-of-text anchor and whose left spine
starts with the begin-of-text anchor — which is the case exactly when the
anchors bind the whole pattern, e.g. whenever e has no top-level
alternation — the route matches s if and only if some match of the
compiled pattern spans the entire string s, i.e. the match is a
full-string match. -/
theorem c2_anchored_full_string_iff (e s : String) (r : Regex) (n : Nat) (R : Regex)
    (hc : compile ("^" ++ e ++ "$") = .ok (r, n))
    (hshape : r = Regex.cat R Regex.ends)
    (hanch : LeftAnchored R) :
    routeMatchesB e s = true ↔ wholeMatchB r s = true := by
  simp only [routeMatchesB, hc]
  constructor
  · intro hrm
    cases hfsm : findStringSubmatch r n s with
    | none => rw [hfsm] at hrm; simp at hrm
    | some o =>
      cases o with
      | none => rw [hfsm] at hrm; simp at hrm
      | some m =>
        rcases fsmAux_exists_pos r n s.data (initFuel r s.data) (List.range (s.length + 1)) m
          hfsm with ⟨pos, hmem, x, t, hml, hrender⟩
        have hne : (x :: t : List (Nat × Caps)) ≠ [] := by simp
        set F := initFuel r s.data with hF
        have hml' := hml
        rw [hshape] at hml'
        rcases mlistF_catEnds_sub s.data R F pos [] (x :: t) hml' hne with
          ⟨fl', l0, hfl, hR, hl0⟩
        have hpos : pos = 0 := leftAnchored_pos_zero hanch s.data fl' pos [] l0 hR hl0
        have hx : x.1 = s.data.length :=
          mlistF_catEnds_elem s.data R F pos [] (x :: t) hml' x
            (List.mem_cons_self x t)
        subst hpos
        unfold wholeMatchB
        rw [hml]
        simp only [List.any_cons, Bool.or_eq_true, beq_iff_eq]
        left
        rw [hx]
        rfl
  · intro hw
    unfold wholeMatchB at hw
    cases hml : mlistF s.data (initFuel r s.data) r 0 [] with
    | none => rw [hml] at hw; simp at hw
    | some l =>
      rw [hml] at hw
      cases l with
      | nil => simp at hw
      | cons x t =>
        have : findStringSubmatch r n s = some (some (renderMatch s.data n 0 x.1 x.2)) := by
          unfold findStringSubmatch
          rw [List.range_succ_eq_map]
          simp only [fsmAux, hml]
        rw [this]

/-- Witness for C2 at pattern "foo" and path "foo": the compiled anchored
pattern has the required shape, and route matching agrees with
full-string matching there. -/
theorem c2_anchored_full_string_iff_witness :
    routeMatchesB "foo" "foo" = true ↔
      wholeMatchB (Regex.cat
        (Regex.cat (Regex.cat (Regex.cat Regex.begins (Regex.char 'f')) (Regex.char 'o'))
          (Regex.char 'o')) Regex.ends) "foo" = true :=
  c2_anchored_full_string_iff "foo" "foo"
    (Regex.cat
      (Regex.cat (Regex.cat (Regex.cat Regex.begins (Regex.char 'f')) (Regex.char 'o'))
        (Regex.char 'o')) Regex.ends) 0
    (Regex.cat (Regex.cat (Regex.cat Regex.begins (Regex.char 'f')) (Regex.char 'o'))
      (Regex.char 'o'))
    rfl rfl
    (LeftAnchored.step (LeftAnchored.step (LeftAnchored.step LeftAnchored.base)))

/-- C3: every successful dispatch passes the matched route's handler a
capture sequence of exactly the length given by the compiled pattern's
capture-group count (the groups appear in the slice indexed in order of
their opening parenthesis in the pattern source, group 0 excluded); and
for every route produced by Add, that stored count is exactly the number
of capturing groups of the compiled regex — the anchoring characters add
no groups, so it is the number of capturing groups of the supplied
pattern. -/
theorem c3_capture_count :
    (∀ (α : Type) (rs : List (Route α)) (p : String) (invs : List (α × List String))
      (f : α) (cs : List String),
      serveLoop rs p = some invs → (f, cs) ∈ invs →
      ∃ r ∈ rs, f = r.f ∧ cs.length = r.ngroups) ∧
    (∀ (α : Type) (t : RegexpHandler α) (e : String) (fn : α) (t' : RegexpHandler α),
      RegexpHandler.Add t e fn = .ok t' →
      ∀ r ∈ t'.routes, r ∈ t.routes ∨ cg r.re = r.ngroups) := by
  constructor
  · intro α rs p invs f cs h hmem
    rcases serveLoop_mem rs p invs f cs h hmem with ⟨r, hr, hf, m, hm, hcs⟩
    refine ⟨r, hr, hf, ?_⟩
    have hlen := fsm_some_length r.re r.ngroups p m hm
    rw [hcs]
    simp [List.length_drop, hlen]
  · intro α t e fn t' hAdd r hr
    rcases Add_ok t e fn t' hAdd with ⟨r0, n0, hc, hroutes⟩
    rw [hroutes] at hr
    rcases List.mem_append.mp hr with hl | hrr
    · exact Or.inl hl
    · rcases List.mem_singleton.mp hrr with rfl
      exact Or.inr (compile_cg _ _ _ hc)

/-- Witness for C3: the route compiled from "(a)" (one capture group)
dispatched on "a" hands its handler a capture slice of length 1. -/
theorem c3_capture_count_witness :
    ∃ r ∈ [(⟨Regex.cat (Regex.cat Regex.begins (Regex.group 1 (Regex.char 'a'))) Regex.ends,
        1, (5 : Nat)⟩ : Route Nat)],
      (5 : Nat) = r.f ∧ (["a"] : List String).length = r.ngroups :=
  c3_capture_count.1 Nat
    [⟨Regex.cat (Regex.cat Regex.begins (Regex.group 1 (Regex.char 'a'))) Regex.ends, 1, 5⟩]
    "a" [(5, ["a"])] 5 ["a"] rfl (List.mem_singleton.mpr rfl)

/-- C5: if none of the registered routes' compiled patterns matches the
dispatched path, the dispatch loop performs zero handler invocations and
returns normally (the Go loop simply falls through) — no error is
signalled. -/
theorem c5_no_match_no_invocation {α : Type} (rs : List (Route α)) (p : String)
    (hnone : ∀ r ∈ rs, findStringSubmatch r.re r.ngroups p = some none) :
    serveLoop rs p = some [] :=
  serveLoop_all_none rs p hnone

/-- Witness for C5: the route compiled from "a" dispatched on "b"
invokes nothing. -/
theorem c5_no_match_no_invocation_witness :
    serveLoop [(⟨Regex.cat (Regex.cat Regex.begins (Regex.char 'a')) Regex.ends, 0,
      (3 : Nat)⟩ : Route Nat)] "b" = some [] :=
  c5_no_match_no_invocation _ "b" (by decide)

/-- C6: each successful Add appends exactly one route — the compiled
anchored pattern paired with the supplied function — at the end of the
table, and a sequence of successful Adds yields exactly the registered
(pattern, function) pairs, compiled, in registration order: pre-existing
routes are untouched in place, and the route registered i-th sits at
offset i after them.  Together with the dispatch loop's read-only access
to the table (claim C9) this is the full set of operations, so no route
is ever reordered, removed, mutated or deduplicated. -/
theorem c6_table_is_append_in_order :
    (∀ (α : Type) (t : RegexpHandler α) (e : String) (fn : α) (t' : RegexpHandler α),
      RegexpHandler.Add t e fn = .ok t' →
      ∃ r n, compile ("^" ++ e ++ "$") = .ok (r, n) ∧
        t'.routes = t.routes ++ [⟨r, n, fn⟩]) ∧
    (∀ (α : Type) (ps : List (String × α)) (t t' : RegexpHandler α), addAll t ps = .ok t' →
      t'.routes.length = t.routes.length + ps.length ∧
      (∀ i, i < t.routes.length → t'.routes[i]? = t.routes[i]?) ∧
      (∀ i e fn, ps[i]? = some (e, fn) →
        ∃ r n, compile ("^" ++ e ++ "$") = .ok (r, n) ∧
          t'.routes[t.routes.length + i]? = some ⟨r, n, fn⟩)) :=
  ⟨fun _ t e fn t' h => Add_ok t e fn t' h, fun _ ps t t' h => addAll_ok ps t t' h⟩

/-- Witness for C6: adding pattern "a" to the empty table produces the
singleton table holding its compiled route. -/
theorem c6_table_is_append_in_order_witness :
    ∃ r n, compile ("^" ++ "a" ++ "$") = .ok (r, n) ∧
      (⟨[⟨Regex.cat (Regex.cat Regex.begins (Regex.char 'a')) Regex.ends, 0, (1 : Nat)⟩]⟩ :
        RegexpHandler Nat).routes = (NewRegexpHandler (α := Nat)).routes ++ [⟨r, n, 1⟩] :=
  c6_table_is_append_in_order.1 Nat NewRegexpHandler "a" 1
    ⟨[⟨Regex.cat (Regex.cat Regex.begins (Regex.char 'a')) Regex.ends, 0, 1⟩]⟩ rfl

/-- C7: when every registered route has zero capture groups, any handler
invocation a dispatch performs receives the empty capture sequence (a
present, length-zero list — the dispatch passes matches drop 1, never an
absent value); concretely, registering "a*" and dispatching the empty
path invokes its handler with the empty capture sequence. -/
theorem c7_zero_groups_empty_capture_list :
    (∀ (α : Type) (rs : List (Route α)) (p : String) (invs : List (α × List String)),
      serveLoop rs p = some invs → (∀ r ∈ rs, r.ngroups = 0) →
      ∀ inv ∈ invs, inv.2 = ([] : List String)) ∧
    (Except.map (fun t => serveLoop t.routes "")
      (addAll (α := Nat) NewRegexpHandler [("a*", 5)]) = .ok (some [(5, [])])) := by
  constructor
  · intro α rs p invs h hz inv hmem
    obtain ⟨f, cs⟩ := inv
    rcases serveLoop_mem rs p invs f cs h hmem with ⟨r, hr, _, m, hm, hcs⟩
    have hlen := fsm_some_length r.re r.ngroups p m hm
    have hcs0 : cs.length = 0 := by
      rw [hcs]
      simp [List.length_drop, hlen, hz r hr]
    simpa using List.length_eq_zero.mp hcs0
  · rfl

/-- Witness for C7: the route compiled from "a*" (zero groups) dispatched
on the empty path passes the empty capture sequence. -/
theorem c7_zero_groups_empty_capture_list_witness :
    ((5 : Nat), ([] : List String)).2 = ([] : List String) :=
  c7_zero_groups_empty_capture_list.1 Nat
    [⟨Regex.cat (Regex.cat Regex.begins (Regex.rep 0 none true (Regex.char 'a'))) Regex.ends, 0, 5⟩]
    "" [(5, [])] rfl (by decide) (5, []) (List.mem_singleton.mpr rfl)

/-- C8: the pattern "foo", whose registration compiles "^foo$", does not
match the paths "foobar" or "xfoo", and does match "foo": for this
literal pattern the textual anchoring enforces a full-string match. -/
theorem c8_literal_anchoring :
    routeMatchesB "foo" "foobar" = false ∧
    routeMatchesB "foo" "xfoo" = false ∧
    routeMatchesB "foo" "foo" = true :=
  ⟨rfl, rfl, rfl⟩

/-- C9: dispatch leaves the handler object — hence the route table, its
length, order, patterns and functions — exactly as it was (the Go method
never writes h.routes), and performs at most one handler invocation: the
single invocation of the matched handler, if any. -/
theorem c9_dispatch_is_pure (α : Type) (h : RegexpHandler α) (p : String) :
    (RegexpHandler.ServeHTTP h p).1 = h ∧
    (∀ invs, (RegexpHandler.ServeHTTP h p).2 = some invs → invs.length ≤ 1) := by
  constructor
  · rfl
  · intro invs hinv
    exact serveLoop_len h.routes p invs hinv

/-- Witness for C9 on the empty handler and an arbitrary path. -/
theorem c9_dispatch_is_pure_witness :
    (RegexpHandler.ServeHTTP (NewRegexpHandler (α := Nat)) "x").1 =
      NewRegexpHandler (α := Nat) ∧ ([] : List (Nat × List String)).length ≤ 1 :=
  ⟨(c9_dispatch_is_pure Nat NewRegexpHandler "x").1,
    (c9_dispatch_is_pure Nat NewRegexpHandler "x").2 [] rfl⟩

/-- C10: whenever FindStringSubmatch succeeds for a compiled regex with n
capture groups, the returned slice has exactly n + 1 entries — a group
that did not participate in the match still occupies its position,
rendered as the empty string, so the capture sequence handed to a handler
always has length n; concretely, registering "(a)?b" and dispatching "b"
invokes its handler with the one-element capture sequence containing the
empty string for the unused optional group. -/
theorem c10_unused_group_keeps_position :
    (∀ (r : Regex) (n : Nat) (p : String) (m : List String),
      findStringSubmatch r n p = some (some m) → m.length = n + 1) ∧
    (Except.map (fun t => serveLoop t.routes "b")
      (addAll (α := Nat) NewRegexpHandler [("(a)?b", 3)]) = .ok (some [(3, [""])])) :=
  ⟨fun r n p m h => fsm_some_length r n p m h, rfl⟩

/-- Witness for C10: the compiled form of "^(a)?b$" matched against "b"
returns the two-entry slice with the empty string at the unused group's
position. -/
theorem c10_unused_group_keeps_position_witness :
    (["b", ""] : List String).length = 1 + 1 :=
  c10_unused_group_keeps_position.1
    (Regex.cat
      (Regex.cat (Regex.cat Regex.begins (Regex.rep 0 (some 1) true (Regex.group 1 (Regex.char 'a'))))
        (Regex.char 'b')) Regex.ends) 1 "b" ["b", ""] rfl
